import Mathlib

/-!
# Verification of the telegram-analytics-bot classification/aggregation pipeline

Shallow embedding of the core of the repository:
* `app/filters.py` — `MessageFilter` (chat-level and message-level work classification),
* `app/db.py` — `DatabaseManager` (message fetch by time window, filter rows),
* `app/summarize.py` — `MessageSummarizer._parse_gpt_response`,
* `app/main.py` — `TelegramAnalyticsBot.run_hourly_analysis` and `_send_analysis_report`.

Python strings are modelled as Lean `String` / `List Char`; Python's `str.lower` /
`str.upper` are modelled on the alphabets actually occurring in the program's data
(ASCII letters and Russian Cyrillic, including `ё`); Python's substring test
(`needle in hay`) is modelled by an executable scan `containsSub`.  SQLite timestamps
are modelled as integers (timestamp comparison in the program is a total order).
-/

namespace TgBot

/-- Python `str.lower` on a single character, restricted to the alphabets used by the
program: ASCII `A`-`Z` and Cyrillic `А`-`Я` (U+0410..U+042F, +0x20 to lowercase) and
`Ё` (U+0401 → U+0451).  Other characters are unchanged. -/
def pyLowerChar (c : Char) : Char :=
  if 'A' ≤ c ∧ c ≤ 'Z' then Char.ofNat (c.toNat + 32)
  else if 'А' ≤ c ∧ c ≤ 'Я' then Char.ofNat (c.toNat + 32)
  else if c = 'Ё' then 'ё'
  else c

/-- Python `str.upper` on a single character (inverse direction of `pyLowerChar`). -/
def pyUpperChar (c : Char) : Char :=
  if 'a' ≤ c ∧ c ≤ 'z' then Char.ofNat (c.toNat - 32)
  else if 'а' ≤ c ∧ c ≤ 'я' then Char.ofNat (c.toNat - 32)
  else if c = 'ё' then 'Ё'
  else c

/-- Python `str.lower` on a string. -/
def pyLower (s : String) : String :=
  ⟨s.data.map pyLowerChar⟩

/-- `isPrefixCheck n h` decides whether the list `n` is a prefix of `h`. -/
def isPrefixCheck : List Char → List Char → Bool
  | [], _ => true
  | _ :: _, [] => false
  | a :: as, b :: bs => a = b && isPrefixCheck as bs

/-- `containsSub n h` decides whether `n` occurs as a contiguous substring of `h`
(Python's `n in h`; the empty needle occurs in every string). -/
def containsSub (n : List Char) : List Char → Bool
  | [] => isPrefixCheck n []
  | b :: bs => isPrefixCheck n (b :: bs) || containsSub n bs

/-- Python substring test `needle in hay` on strings. -/
def pySubstr (needle hay : String) : Bool :=
  containsSub needle.data hay.data

theorem isPrefixCheck_append (n t : List Char) : isPrefixCheck n (n ++ t) = true := by
  induction n with
  | nil => rfl
  | cons a as ih => simp [isPrefixCheck, ih]

theorem containsSub_of_isPrefixCheck {n h : List Char} (hp : isPrefixCheck n h = true) :
    containsSub n h = true := by
  cases h with
  | nil => simpa [containsSub] using hp
  | cons b bs => simp [containsSub, hp]

/-- `MessageFilter.WORK_KEYWORDS` (app/filters.py): the built-in work-keyword list. -/
def WORK_KEYWORDS : List String := [
  "регламент", "regulation", "report", "отчет", "отчёт", "reporting", "KPI", "OKR",
  "deadline", "дедлайн", "срок", "task", "задача", "таск", "тикет", "priority",
  "приоритет", "execution", "исполнение", "выполнить", "plan", "план", "планёрка",
  "strategy", "стратегия", "discussion", "обсуждение", "совещание", "project", "проект",
  "проектный", "meeting", "митинг", "call", "звонок", "negotiation", "переговоры",
  "agenda", "повестка", "follow-up", "сделка", "deal", "client", "клиент", "customer",
  "заказчик", "buyer", "покупатель", "lead", "лид", "заявка", "application", "request",
  "договор", "contract", "agreement", "контракт", "invoice", "счет", "счёт", "инвойс",
  "payment", "оплата", "платеж", "billing", "бронирование", "booking", "reservation",
  "commission", "комиссия", "margin", "маржа", "profit", "прибыль", "revenue", "доход",
  "earnings", "доходность", "ROI", "return", "инвестиции", "investments", "investor",
  "инвестор", "capital", "капитал", "assets", "активы", "apartment", "квартира",
  "апартаменты", "flat", "condo", "condominium", "residence", "жильё", "вилла", "villa",
  "townhouse", "новостройка", "developer", "застройщик", "объект", "property",
  "недвижимость", "listing", "объект недвижимости", "location", "локация", "район",
  "аренда офиса", "office rent", "rental", "аренда", "rental agreement", "лизинг",
  "mortgage", "ипотека", "loan", "кредит", "escrow", "эскроу", "insurance", "страховка",
  "юридический", "legal", "юрист", "lawyer", "compliance", "комплаенс", "лицензия",
  "license", "registration", "регистрация", "tax", "налог", "accounting", "бухгалтерия",
  "finance", "финансы", "бухгалтер", "акт", "document", "документ", "документация",
  "спецификация", "specification", "согласовать", "согласование", "approval", "утвердить",
  "утверждение", "инструкция", "instruction", "guideline", "policy", "policy doc",
  "business", "бизнес", "рабочий вопрос", "work issue", "workflow", "operations",
  "operations team", "performance", "эффективность", "productivity", "продуктивность",
  "optimization", "оптимизация", "отчетность", "statistics", "статистика", "analytics",
  "аналитика", "data", "данные", "BI", "бизнес-аналитика", "Google Sheets", "таблица",
  "Excel", "spreadsheet", "база данных", "database", "CRM", "AmoCRM", "ERP", "интеграция",
  "integration", "API", "скрипт", "script", "automation", "автоматизация", "bot", "бот",
  "AI", "искусственный интеллект", "маркетинг", "marketing", "продвижение", "promotion",
  "таргет", "target", "targeting", "таргетолог", "ads", "реклама", "advertising",
  "рекламная кампания", "campaign", "креатив", "creative", "баннер", "banner", "контент",
  "content", "пост", "post", "публикация", "publication", "reels", "рилс", "stories",
  "stories ad", "соцсети", "SMM", "social media", "охваты", "reach", "conversion",
  "конверсия", "лидогенерация", "leadgen", "funnel", "воронка", "traffic", "трафик",
  "CPC", "CPA", "CPL", "CTR", "candidate", "кандидат", "hire", "нанять", "найм",
  "recruitment", "рекрутинг", "HR", "human resources", "employee", "сотрудник",
  "работник", "team", "команда", "staff", "персонал", "собеседование", "interview",
  "onboarding", "адаптация", "adaptation", "увольнение", "termination", "мотивация",
  "motivation", "бонус", "bonus", "оклад", "salary", "зарплата", "премия", "reward",
  "benefit", "compensation", "remuneration", "окладная часть", "training", "обучение",
  "development", "развитие"]

/-- `MessageFilter.PERSONAL_KEYWORDS` (app/filters.py): the fixed personal-keyword list. -/
def PERSONAL_KEYWORDS : List String := [
  "привет", "как дела", "семья", "друзья", "отдых", "выходные", "покупки", "дом", "еда",
  "фильм", "книга", "спорт", "хобби", "погода", "настроение", "личный", "день рождения",
  "праздник", "отпуск", "путешествие", "здоровье", "болезнь", "лечение", "врач",
  "больница", "лекарство", "диета", "любовь", "отношения", "свадьба", "развод", "дети",
  "школа", "университет", "развлечения", "игра", "музыка", "концерт", "театр", "музей",
  "ресторан"]

/-- The in-memory rule set of `MessageFilter` after `_load_filters`: the Python sets
`allow_chats`, `deny_chats`, `custom_keywords`. -/
structure FilterState where
  allow_chats : Finset String
  deny_chats : Finset String
  custom_keywords : Finset String
deriving DecidableEq

/-- `MessageFilter._check_work_keywords` (app/filters.py:170-187): empty text is not
work; otherwise the lowercased text is scanned for any built-in keyword (lowercased)
or any custom keyword (used as stored, not lowercased again) as a substring.  The
Python loop returns on the first hit; the result equals this disjunction. -/
def check_work_keywords (f : FilterState) (text : String) : Bool :=
  if text = "" then false
  else
    (WORK_KEYWORDS.any fun k => pySubstr (pyLower k) (pyLower text)) ||
      decide (∃ k ∈ f.custom_keywords, pySubstr k (pyLower text) = true)

/-- `MessageFilter.is_work_chat` (app/filters.py:114-141): allow-list first (Python's
`if self.allow_chats and chat_id in self.allow_chats`), then deny-list, then keyword
fallback when the allow-list is empty, else not work. -/
def is_work_chat (f : FilterState) (chat_id chat_title : String) : Bool :=
  if f.allow_chats.Nonempty ∧ chat_id ∈ f.allow_chats then true
  else if chat_id ∈ f.deny_chats then false
  else if f.allow_chats = ∅ then check_work_keywords f chat_title
  else false

/-- `MessageFilter.is_work_message` (app/filters.py:143-168).  `text` is `none` for a
Python `None`; `if not text` rejects both `None` and the empty string.  The work count
iterates the Python set `set(WORK_KEYWORDS) | custom_keywords` testing each keyword
lowercased; iteration order of the set does not affect the accumulated count, which
equals the cardinality of the matching subset.  The personal count iterates the
`PERSONAL_KEYWORDS` list. -/
def is_work_message (f : FilterState) (text : Option String) : Bool :=
  match text with
  | none => false
  | some t =>
    if t = "" then false
    else
      decide
        (((WORK_KEYWORDS.toFinset ∪ f.custom_keywords).filter fun k =>
            pySubstr (pyLower k) (pyLower t) = true).card >
          PERSONAL_KEYWORDS.foldl
            (fun n k => if pySubstr (pyLower k) (pyLower t) then n + 1 else n) 0)

/-- Spec-side formalisation of the keyword fallback in §4.1(c) of the spec: some
keyword from the union of built-in and custom keywords matches the title as a
case-insensitive substring. -/
def keywordScanSpec (f : FilterState) (title : String) : Bool :=
  decide (∃ k ∈ WORK_KEYWORDS.toFinset ∪ f.custom_keywords,
    pySubstr (pyLower k) (pyLower title) = true)

theorem string_eq_empty_iff (s : String) : s = "" ↔ s.data = [] := by
  constructor
  · intro h
    subst h
    rfl
  · intro h
    cases s with
    | mk d => exact congrArg String.mk h

set_option maxRecDepth 40000 in
theorem work_keywords_all_ne_empty : WORK_KEYWORDS.all (fun k => !(k = "")) = true := by
  decide

theorem work_keywords_ne_empty : ∀ k ∈ WORK_KEYWORDS, k ≠ "" := by
  intro k hk
  have h := List.all_eq_true.mp work_keywords_all_ne_empty k hk
  simpa using h

theorem pySubstr_empty_iff (k : String) : pySubstr k "" = true ↔ k = "" := by
  rw [string_eq_empty_iff]
  cases k with
  | mk d =>
    cases d with
    | nil => simp [pySubstr, containsSub, isPrefixCheck]
    | cons a as => simp [pySubstr, containsSub, isPrefixCheck]

theorem pyLower_empty_iff (k : String) : pyLower k = "" ↔ k = "" := by
  rw [string_eq_empty_iff, string_eq_empty_iff]
  simp [pyLower]

theorem check_work_keywords_eq_scan (f : FilterState)
    (hcust : ∀ k ∈ f.custom_keywords, pyLower k = k)
    (hne : "" ∉ f.custom_keywords) (title : String) :
    check_work_keywords f title = keywordScanSpec f title := by
  by_cases ht : title = ""
  · subst ht
    rw [check_work_keywords, keywordScanSpec, if_pos rfl]
    symm
    simp only [decide_eq_false_iff_not]
    rintro ⟨k, hk, hmatch⟩
    have hk0 : pyLower k = "" := by
      rw [← pySubstr_empty_iff]
      simpa [pyLower] using hmatch
    have hk1 : k = "" := (pyLower_empty_iff k).mp hk0
    subst hk1
    rcases Finset.mem_union.mp hk with h | h
    · exact work_keywords_ne_empty _ (List.mem_toFinset.mp h) rfl
    · exact hne h
  · rw [check_work_keywords, keywordScanSpec, if_neg ht]
    rcases Bool.eq_false_or_eq_true (keywordScanSpec f title) with hb | hb <;>
      rw [keywordScanSpec] at hb
    · rw [hb]
      simp only [decide_eq_true_eq] at hb
      rcases hb with ⟨k, hk, hmatch⟩
      simp only [Bool.or_eq_true, List.any_eq_true]
      rcases Finset.mem_union.mp hk with h | h
      · exact Or.inl ⟨k, List.mem_toFinset.mp h, hmatch⟩
      · refine Or.inr ?_
        rw [decide_eq_true_eq]
        refine ⟨k, h, ?_⟩
        rwa [hcust k h] at hmatch
    · rw [hb]
      simp only [decide_eq_false_iff_not] at hb
      push_neg at hb
      simp only [Bool.or_eq_false_iff, List.any_eq_false, decide_eq_false_iff_not]
      constructor
      · intro k hk
        exact (hb k (Finset.mem_union_left _ (List.mem_toFinset.mpr hk)))
      · rintro ⟨k, hk, hmatch⟩
        have := hb k (Finset.mem_union_right _ hk)
        rw [hcust k hk] at this
        exact this hmatch

/-- C1: `isWorkChat` resolution order is first-match-wins: allow-list hit → `true`
(even for a deny-listed chat); else deny-list hit → `false`; else, with an empty
allow-list, the case-insensitive keyword scan of the chat title; else `false`.
The hypotheses record that loaded custom keywords are stored lowercased and
non-empty (`_load_filters` / `add_keyword` store `value.lower()`). -/
theorem is_work_chat_resolution (f : FilterState)
    (hcust : ∀ k ∈ f.custom_keywords, pyLower k = k)
    (hne : "" ∉ f.custom_keywords) (cid title : String) :
    is_work_chat f cid title =
      if f.allow_chats ≠ ∅ ∧ cid ∈ f.allow_chats then true
      else if cid ∈ f.deny_chats then false
      else if f.allow_chats = ∅ then keywordScanSpec f title
      else false := by
  have hnonempty : (f.allow_chats.Nonempty ∧ cid ∈ f.allow_chats) ↔
      (f.allow_chats ≠ ∅ ∧ cid ∈ f.allow_chats) := by
    rw [Finset.nonempty_iff_ne_empty]
  rw [is_work_chat]
  by_cases h1 : f.allow_chats ≠ ∅ ∧ cid ∈ f.allow_chats
  · rw [if_pos (hnonempty.mpr h1), if_pos h1]
  · rw [if_neg (fun hc => h1 (hnonempty.mp hc)), if_neg h1]
    by_cases h2 : cid ∈ f.deny_chats
    · rw [if_pos h2, if_pos h2]
    · rw [if_neg h2, if_neg h2]
      by_cases h3 : f.allow_chats = ∅
      · rw [if_pos h3, if_pos h3, check_work_keywords_eq_scan f hcust hne]
      · rw [if_neg h3, if_neg h3]

set_option maxRecDepth 40000 in
theorem personal_keywords_nodup : PERSONAL_KEYWORDS.Nodup := by decide

theorem foldl_count_eq (p : String → Bool) (l : List String) (n : ℕ) :
    l.foldl (fun n k => if p k then n + 1 else n) n = n + l.countP p := by
  induction l generalizing n with
  | nil => simp
  | cons a t ih =>
    simp only [List.foldl_cons, List.countP_cons, ih]
    by_cases h : p a
    · simp only [h, if_pos]
      omega
    · simp [h]

theorem card_filter_toFinset (l : List String) (hl : l.Nodup) (p : String → Bool) :
    (l.toFinset.filter fun k => p k = true).card = l.countP p := by
  have h1 : (l.filter p).toFinset = l.toFinset.filter fun k => p k = true := by
    ext x
    simp [List.mem_filter]
  rw [← h1, List.card_toFinset, List.Nodup.dedup (List.Nodup.filter p hl),
    List.countP_eq_length_filter]

/-- C2: `isWorkMessage` is true iff the number of distinct keywords of the union
`set(WORK_KEYWORDS) ∪ custom_keywords` (each counted once, even when a keyword is in
both lists or matches several times) occurring case-insensitively in the text exceeds
strictly the number of distinct personal-list keywords occurring in it; ties give
`false`, and null (`none`) or empty text gives `false`. -/
theorem is_work_message_iff (f : FilterState) (text : Option String) :
    is_work_message f text = true ↔
      ∃ s, text = some s ∧ s ≠ "" ∧
        ((WORK_KEYWORDS.toFinset ∪ f.custom_keywords).filter fun k =>
            pySubstr (pyLower k) (pyLower s) = true).card >
          (PERSONAL_KEYWORDS.toFinset.filter fun k =>
            pySubstr (pyLower k) (pyLower s) = true).card := by
  cases text with
  | none => simp [is_work_message]
  | some s =>
    by_cases hs : s = ""
    · subst hs
      simp [is_work_message]
    · have hp : PERSONAL_KEYWORDS.foldl
          (fun n k => if pySubstr (pyLower k) (pyLower s) then n + 1 else n) 0 =
          (PERSONAL_KEYWORDS.toFinset.filter fun k =>
            pySubstr (pyLower k) (pyLower s) = true).card := by
        rw [foldl_count_eq, card_filter_toFinset _ personal_keywords_nodup, Nat.zero_add]
      simp [is_work_message, hs, hp]

/-- Witness for C1 at a concrete rule set: the chat `"42"` is both allow-listed and
deny-listed, and is classified as work. -/
theorem is_work_chat_resolution_witness :
    (∀ k ∈ (({"срочно"} : Finset String)), pyLower k = k) ∧
      "" ∉ (({"срочно"} : Finset String)) ∧
      is_work_chat ⟨{"42"}, {"42"}, {"срочно"}⟩ "42" "" =
        if ({"42"} : Finset String) ≠ ∅ ∧ "42" ∈ ({"42"} : Finset String) then true
        else if "42" ∈ ({"42"} : Finset String) then false
        else if ({"42"} : Finset String) = ∅ then
          keywordScanSpec ⟨{"42"}, {"42"}, {"срочно"}⟩ ""
        else false := by
  refine ⟨by decide, by decide, ?_⟩
  exact is_work_chat_resolution ⟨{"42"}, {"42"}, {"срочно"}⟩ (by decide) (by decide) "42" ""

/-- A stored message row, as returned by `DatabaseManager.get_new_messages`
(app/db.py:141-158): a row of `messages` joined with its chat's `title`.  The `text`
column is nullable (`none` models SQL NULL); `ts` is the message timestamp (SQLite
datetime values, modelled as integers since the program only compares them). -/
structure Msg where
  chat_id : String
  tg_message_id : String
  sender : String
  text : Option String
  ts : Int
  title : String
deriving DecidableEq

/-- `DatabaseManager.get_new_messages` (app/db.py:141-158): `SELECT ... WHERE
m.ts >= ? AND m.ts < ? ORDER BY m.ts ASC` over the stored messages.  The SQL filter
keeps exactly the rows with `window_start <= ts < window_end` and sorts the result by
`ts` ascending. -/
def get_new_messages (store : List Msg) (window_start window_end : Int) : List Msg :=
  List.insertionSort (fun a b => a.ts ≤ b.ts)
    (store.filter fun m => decide (window_start ≤ m.ts ∧ m.ts < window_end))

instance : IsTotal Msg (fun a b => a.ts ≤ b.ts) :=
  ⟨fun a b => le_total a.ts b.ts⟩

instance : IsTrans Msg (fun a b => a.ts ≤ b.ts) :=
  ⟨fun _ _ _ hab hbc => le_trans hab hbc⟩

theorem mem_get_new_messages (store : List Msg) (ws we : Int) (m : Msg) :
    m ∈ get_new_messages store ws we ↔ m ∈ store ∧ ws ≤ m.ts ∧ m.ts < we := by
  rw [get_new_messages, List.mem_insertionSort, List.mem_filter]
  simp

/-- C3: the fetch returns exactly the stored messages whose timestamp lies in the
half-open window `[start, end)`, ordered by timestamp ascending; a message timestamped
exactly at the window end is excluded from this window and belongs to the next window,
which starts at this window's end. -/
theorem get_new_messages_window (store : List Msg) (ws we we2 : Int) (m : Msg) :
    (m ∈ get_new_messages store ws we ↔ m ∈ store ∧ ws ≤ m.ts ∧ m.ts < we) ∧
      (get_new_messages store ws we).Sorted (fun a b => a.ts ≤ b.ts) ∧
      (m.ts = we → m ∉ get_new_messages store ws we) ∧
      (m.ts = we → m ∈ store → m.ts < we2 → m ∈ get_new_messages store we we2) := by
  refine ⟨mem_get_new_messages store ws we m, ?_, ?_, ?_⟩
  · exact List.sorted_insertionSort _ _
  · intro hts hmem
    have h := ((mem_get_new_messages store ws we m).mp hmem).2.2
    omega
  · intro hts hmem hlt
    exact (mem_get_new_messages store we we2 m).mpr ⟨hmem, le_of_eq hts.symm, hlt⟩

/-- Witness for C3 on a two-message store with window `[0, 5)` followed by `[5, 10)`:
the message at `ts = 3` is fetched by the first window, the one at `ts = 5` is not,
and the latter is fetched by the next window. -/
theorem get_new_messages_window_witness :
    (Msg.mk "c" "1" "s" none 3 "t" ∈
        get_new_messages [Msg.mk "c" "1" "s" none 3 "t", Msg.mk "c" "2" "s" none 5 "t"] 0 5 ↔
      Msg.mk "c" "1" "s" none 3 "t" ∈
          [Msg.mk "c" "1" "s" none 3 "t", Msg.mk "c" "2" "s" none 5 "t"] ∧
        (0 : Int) ≤ 3 ∧ (3 : Int) < 5) ∧
      Msg.mk "c" "2" "s" none 5 "t" ∉
        get_new_messages [Msg.mk "c" "1" "s" none 3 "t", Msg.mk "c" "2" "s" none 5 "t"] 0 5 ∧
      Msg.mk "c" "2" "s" none 5 "t" ∈
        get_new_messages [Msg.mk "c" "1" "s" none 3 "t", Msg.mk "c" "2" "s" none 5 "t"] 5 10 := by
  refine ⟨(get_new_messages_window _ 0 5 10 _).1, ?_, ?_⟩
  · exact (get_new_messages_window
      [Msg.mk "c" "1" "s" none 3 "t", Msg.mk "c" "2" "s" none 5 "t"] 0 5 10
      (Msg.mk "c" "2" "s" none 5 "t")).2.2.1 rfl
  · exact (get_new_messages_window
      [Msg.mk "c" "1" "s" none 3 "t", Msg.mk "c" "2" "s" none 5 "t"] 0 5 10
      (Msg.mk "c" "2" "s" none 5 "t")).2.2.2 rfl (by decide) (by decide)

/-- `MessageFilter.filter_messages` (app/filters.py:225-241): keeps exactly the
messages whose text passes `is_work_message`; `chat_id` is read but unused. -/
def filter_messages (f : FilterState) (messages : List Msg) : List Msg :=
  messages.filter fun m => is_work_message f m.text

/-- One step of the per-chat grouping loop of `run_hourly_analysis`
(app/main.py:326-331): append the message to the entry for its chat, creating that
entry at the end on first sight (Python dicts preserve insertion order). -/
def groupAdd : List (String × List Msg) → String → Msg → List (String × List Msg)
  | [], cid, m => [(cid, [m])]
  | (k, l) :: rest, cid, m =>
    if k = cid then (k, l ++ [m]) :: rest
    else (k, l) :: groupAdd rest cid m

/-- The `chats_messages` dict of `run_hourly_analysis` (app/main.py:326-331). -/
def group_by_chat (msgs : List Msg) : List (String × List Msg) :=
  msgs.foldl (fun acc m => groupAdd acc m.chat_id m) []

/-- Membership of a message in the group of a given chat. -/
def inGroup (gs : List (String × List Msg)) (cid : String) (m : Msg) : Prop :=
  ∃ l, (cid, l) ∈ gs ∧ m ∈ l

theorem groupAdd_nil (cid : String) (x : Msg) : groupAdd [] cid x = [(cid, [x])] := rfl

theorem groupAdd_cons_eq (k : String) (l : List Msg) (rest : List (String × List Msg))
    (x : Msg) : groupAdd ((k, l) :: rest) k x = (k, l ++ [x]) :: rest := by
  rw [groupAdd, if_pos rfl]

theorem groupAdd_cons_ne (k cid : String) (l : List Msg)
    (rest : List (String × List Msg)) (x : Msg) (h : ¬ k = cid) :
    groupAdd ((k, l) :: rest) cid x = (k, l) :: groupAdd rest cid x := by
  rw [groupAdd, if_neg h]

theorem inGroup_groupAdd (acc : List (String × List Msg)) (c cid : String) (m x : Msg) :
    inGroup (groupAdd acc cid x) c m ↔ inGroup acc c m ∨ (c = cid ∧ m = x) := by
  induction acc with
  | nil =>
    simp only [groupAdd_nil, inGroup, List.mem_singleton, List.not_mem_nil, Prod.mk.injEq]
    constructor
    · rintro ⟨l, ⟨rfl, rfl⟩, hm⟩
      simp only [List.mem_singleton] at hm
      exact Or.inr ⟨rfl, hm⟩
    · rintro (⟨l, h, _⟩ | ⟨rfl, rfl⟩)
      · exact absurd h (by simp)
      · exact ⟨[m], ⟨rfl, rfl⟩, by simp⟩
  | cons e rest ih =>
    obtain ⟨k, l⟩ := e
    by_cases hk : k = cid
    · subst hk
      rw [groupAdd_cons_eq]
      simp only [inGroup, List.mem_cons, Prod.mk.injEq]
      constructor
      · rintro ⟨l2, ⟨rfl, rfl⟩ | hl2, hm⟩
        · rcases List.mem_append.mp hm with h | h
          · exact Or.inl ⟨l, Or.inl ⟨rfl, rfl⟩, h⟩
          · simp only [List.mem_singleton] at h
            exact Or.inr ⟨rfl, h⟩
        · exact Or.inl ⟨l2, Or.inr hl2, hm⟩
      · rintro (⟨l2, ⟨rfl, rfl⟩ | hl2, hm⟩ | ⟨rfl, rfl⟩)
        · exact ⟨l2 ++ [x], Or.inl ⟨rfl, rfl⟩, List.mem_append.mpr (Or.inl hm)⟩
        · exact ⟨l2, Or.inr hl2, hm⟩
        · exact ⟨l ++ [m], Or.inl ⟨rfl, rfl⟩, List.mem_append.mpr (Or.inr (by simp))⟩
    · rw [groupAdd_cons_ne _ _ _ _ _ hk]
      simp only [inGroup, List.mem_cons, Prod.mk.injEq] at ih ⊢
      constructor
      · rintro ⟨l2, ⟨rfl, rfl⟩ | hl2, hm⟩
        · exact Or.inl ⟨l2, Or.inl ⟨rfl, rfl⟩, hm⟩
        · rcases ih.mp ⟨l2, hl2, hm⟩ with ⟨l3, h3, hm3⟩ | h
          · exact Or.inl ⟨l3, Or.inr h3, hm3⟩
          · exact Or.inr h
      · rintro (⟨l2, ⟨rfl, rfl⟩ | hl2, hm⟩ | h)
        · exact ⟨l2, Or.inl ⟨rfl, rfl⟩, hm⟩
        · rcases ih.mpr (Or.inl ⟨l2, hl2, hm⟩) with ⟨l3, h3, hm3⟩
          exact ⟨l3, Or.inr h3, hm3⟩
        · rcases ih.mpr (Or.inr h) with ⟨l3, h3, hm3⟩
          exact ⟨l3, Or.inr h3, hm3⟩

theorem inGroup_fold (msgs : List Msg) (acc : List (String × List Msg)) (c : String)
    (m : Msg) :
    inGroup (msgs.foldl (fun a x => groupAdd a x.chat_id x) acc) c m ↔
      inGroup acc c m ∨ (m ∈ msgs ∧ m.chat_id = c) := by
  induction msgs generalizing acc with
  | nil => simp
  | cons x t ih =>
    rw [List.foldl_cons, ih, inGroup_groupAdd]
    constructor
    · rintro ((h | ⟨rfl, rfl⟩) | ⟨hm, hc⟩)
      · exact Or.inl h
      · exact Or.inr ⟨List.mem_cons_self .., rfl⟩
      · exact Or.inr ⟨List.mem_cons_of_mem _ hm, hc⟩
    · rintro (h | ⟨hm, hc⟩)
      · exact Or.inl (Or.inl h)
      · rcases List.mem_cons.mp hm with rfl | hm
        · exact Or.inl (Or.inr ⟨hc.symm, rfl⟩)
        · exact Or.inr ⟨hm, hc⟩

theorem is_work_message_custom_only (f g : FilterState)
    (hsame : f.custom_keywords = g.custom_keywords) (t : Option String) :
    is_work_message f t = is_work_message g t := by
  cases t with
  | none => rfl
  | some s => simp [is_work_message, hsame]

/-- C4: a message belongs to the ChatGroup of chat `c` (the per-chat summarizer input
built by `run_hourly_analysis`) iff it is in the fetched list, passes
`is_work_message`, and belongs to that chat; the chat-level `is_work_chat`
classification has no influence — any two rule sets with the same custom keywords
(arbitrary allow/deny lists) produce the same filtered list. -/
theorem chat_group_inclusion (f g : FilterState) (msgs : List Msg) (c : String) (m : Msg)
    (hsame : f.custom_keywords = g.custom_keywords) :
    (inGroup (group_by_chat (filter_messages f msgs)) c m ↔
      m ∈ msgs ∧ is_work_message f m.text = true ∧ m.chat_id = c) ∧
      filter_messages f msgs = filter_messages g msgs := by
  constructor
  · rw [group_by_chat, inGroup_fold]
    simp only [inGroup, List.not_mem_nil, false_and, exists_false, false_or,
      filter_messages, List.mem_filter]
    tauto
  · rw [filter_messages, filter_messages]
    exact List.filter_congr fun m _ => is_work_message_custom_only f g hsame m.text

/-- Witness for C4: two rule sets sharing the custom keyword `{"срочно"}` but with
different allow/deny lists filter a concrete one-message list identically, and the
grouping membership equivalence holds there. -/
theorem chat_group_inclusion_witness :
    (({"срочно"} : Finset String) = ({"срочно"} : Finset String)) ∧
      ((inGroup (group_by_chat (filter_messages ⟨{"1"}, ∅, {"срочно"}⟩
          [Msg.mk "c" "1" "s" (some "привет") 3 "t"])) "c"
          (Msg.mk "c" "1" "s" (some "привет") 3 "t") ↔
        Msg.mk "c" "1" "s" (some "привет") 3 "t" ∈
            [Msg.mk "c" "1" "s" (some "привет") 3 "t"] ∧
          is_work_message ⟨{"1"}, ∅, {"срочно"}⟩ (some "привет") = true ∧ "c" = "c") ∧
        filter_messages ⟨{"1"}, ∅, {"срочно"}⟩ [Msg.mk "c" "1" "s" (some "привет") 3 "t"] =
          filter_messages ⟨∅, {"2"}, {"срочно"}⟩ [Msg.mk "c" "1" "s" (some "привет") 3 "t"]) :=
  ⟨rfl, chat_group_inclusion ⟨{"1"}, ∅, {"срочно"}⟩ ⟨∅, {"2"}, {"срочно"}⟩
    [Msg.mk "c" "1" "s" (some "привет") 3 "t"] "c"
    (Msg.mk "c" "1" "s" (some "привет") 3 "t") rfl⟩

/-- One per-chat summary as parsed from the provider (the `summary` dict of an
`analyze_messages` result): the three lists of `_parse_gpt_response`. -/
structure SummaryR where
  agreements : List String
  risks : List String
  recommendations : List String
deriving DecidableEq

/-- Per-chat entry of the `chats_detail` map of `_get_chats_statistics`
(app/main.py:448-485). -/
structure ChatDetail where
  title : String
  messages_count : Nat
  is_work : Bool
deriving DecidableEq

/-- The statistics dict returned by `_get_chats_statistics` (app/main.py:448-485). -/
structure ChatsStats where
  total_messages : Nat
  total_chats : Nat
  work_chats : Nat
  personal_chats : Nat
  chats_detail : List (String × ChatDetail)
deriving DecidableEq

/-- Decimal rendering of a count interpolated into the report f-strings. -/
def natChars (n : Nat) : List Char :=
  (toString n).data

/-- The aggregate-statistics line of `_send_analysis_report` (app/main.py:386-390),
emitted when a statistics dict is passed. -/
def statsHeaderText (stats : ChatsStats) : List Char :=
  "📊 Всего чатов: ".data ++ natChars stats.total_chats ++ " | ".data ++
    "💼 Рабочих: ".data ++ natChars stats.work_chats ++ " | ".data ++
    "🏠 Личных: ".data ++ natChars stats.personal_chats ++ " | ".data ++
    "📨 Сообщений: ".data ++ natChars stats.total_messages ++ "\n\n".data

/-- The merge loop of `_send_analysis_report` (app/main.py:392-403): concatenate the
per-chat `agreements` / `risks` / `recommendations` lists in report order into
`all_agreements`, `all_risks`, `all_recommendations`. -/
def mergeSummaries (reports : List SummaryR) :
    List String × List String × List String :=
  reports.foldl
    (fun acc r => (acc.1 ++ r.agreements, acc.2.1 ++ r.risks, acc.2.2 ++ r.recommendations))
    (([] : List String), ([] : List String), ([] : List String))

/-- The header of the digest (app/main.py:383-390): the active-chat line, then the
aggregate-statistics line when a statistics dict was passed (Python `if stats:`). -/
def digestHeader (active : Nat) (stats : Option ChatsStats) : List Char :=
  match stats with
  | some s =>
    "🗂 активные чаты за час: ".data ++ natChars active ++ "\n\n".data ++ statsHeaderText s
  | none => "🗂 активные чаты за час: ".data ++ natChars active ++ "\n\n".data

/-- One section block of `_send_analysis_report` (app/main.py:405-423): when the full
merged list is non-empty (Python truthiness), append the section header, then one
`- entry` line for each of the first `k` entries (`[:k]` slice), then the trailing
separator; otherwise leave the text unchanged. -/
def addSection (t : List Char) (hdr : String) (items : List String) (k : Nat)
    (trail : String) : List Char :=
  if items ≠ [] then
    ((items.take k).foldl (fun s a => s ++ "- ".data ++ a.data ++ "\n".data)
        (t ++ hdr.data)) ++
      trail.data
  else t

/-- The digest text assembled by `_send_analysis_report` (app/main.py:375-428),
modelled as the list of characters of `report_text`: header, then the agreements
section capped at 6 entries, the risks section capped at 3, and the recommendations
section capped at 5 (the last without a trailing blank line). -/
def digestText (reports : List SummaryR) (active : Nat) (stats : Option ChatsStats) :
    List Char :=
  addSection
    (addSection
      (addSection (digestHeader active stats) "📌 ключевые договоренности:\n"
        (mergeSummaries reports).1 6 "\n")
      "⚠️ риски:\n" (mergeSummaries reports).2.1 3 "\n")
    "🚀 рекомендации:\n" (mergeSummaries reports).2.2 5 ""

/-- Spec-side rendering of one digest section: omitted entirely when empty, otherwise
a header followed by one `- entry` line per entry and a trailing separator. -/
def sectionSpec (hdr : String) (items : List String) (trail : String) : List Char :=
  if items = [] then []
  else
    hdr.data ++ (items.map fun a => "- ".data ++ a.data ++ "\n".data).flatten ++ trail.data

theorem foldl_line_append (items : List String) (init : List Char) :
    items.foldl (fun s a => s ++ "- ".data ++ a.data ++ "\n".data) init =
      init ++ (items.map fun a => "- ".data ++ a.data ++ "\n".data).flatten := by
  induction items generalizing init with
  | nil => simp
  | cons a t ih =>
    rw [List.foldl_cons, ih]
    simp [List.append_assoc]

theorem mergeSummaries_eq (reports : List SummaryR) :
    mergeSummaries reports =
      ((reports.map SummaryR.agreements).flatten, (reports.map SummaryR.risks).flatten,
        (reports.map SummaryR.recommendations).flatten) := by
  rw [mergeSummaries]
  have h : ∀ (a b c : List String),
      reports.foldl
          (fun acc r =>
            (acc.1 ++ r.agreements, acc.2.1 ++ r.risks, acc.2.2 ++ r.recommendations))
          (a, b, c) =
        (a ++ (reports.map SummaryR.agreements).flatten,
          b ++ (reports.map SummaryR.risks).flatten,
          c ++ (reports.map SummaryR.recommendations).flatten) := by
    induction reports with
    | nil => simp
    | cons r t ih =>
      intro a b c
      rw [List.foldl_cons, ih]
      simp [List.append_assoc]
  simpa using h [] [] []

theorem take_ne_nil_iff (items : List String) (k : Nat) (hk : 0 < k) :
    items.take k = [] ↔ items = [] := by
  rw [List.take_eq_nil_iff]
  constructor
  · rintro (h | h)
    · exact absurd h (Nat.pos_iff_ne_zero.mp hk)
    · exact h
  · exact Or.inr

theorem addSection_eq (t : List Char) (hdr : String) (items : List String) (k : Nat)
    (trail : String) (hk : 0 < k) :
    addSection t hdr items k trail = t ++ sectionSpec hdr (items.take k) trail := by
  rw [addSection]
  by_cases h : items = []
  · simp [h, sectionSpec]
  · rw [if_pos h, foldl_line_append, sectionSpec,
      if_neg (fun hc => h ((take_ne_nil_iff items k hk).mp hc))]
    simp [List.append_assoc]

/-- C5: the digest assembled by `_send_analysis_report` equals a header (plus the
optional statistics line) followed by the three sections, each containing exactly the
first 6 / 3 / 5 entries of the concatenation of the per-chat lists in processing
order, with an empty section omitted entirely. -/
theorem digest_truncation (reports : List SummaryR) (active : Nat)
    (stats : Option ChatsStats) :
    digestText reports active stats =
      digestHeader active stats ++
        sectionSpec "📌 ключевые договоренности:\n"
          ((reports.map SummaryR.agreements).flatten.take 6) "\n" ++
        sectionSpec "⚠️ риски:\n" ((reports.map SummaryR.risks).flatten.take 3) "\n" ++
        sectionSpec "🚀 рекомендации:\n"
          ((reports.map SummaryR.recommendations).flatten.take 5) "" := by
  rw [digestText, mergeSummaries_eq]
  rw [addSection_eq _ _ _ _ _ (by omega), addSection_eq _ _ _ _ _ (by omega),
    addSection_eq _ _ _ _ _ (by omega)]

/-- Python `str.strip` default whitespace (the ASCII whitespace characters). -/
def pyIsSpace (c : Char) : Bool :=
  c = ' ' || c = '\t' || c = '\n' || c = '\r' || c = '\x0b' || c = '\x0c'

/-- Python `str.lstrip()` on a character list. -/
def lstripChars (s : List Char) : List Char :=
  s.dropWhile pyIsSpace

/-- Python `str.rstrip()` on a character list. -/
def rstripChars (s : List Char) : List Char :=
  (s.reverse.dropWhile pyIsSpace).reverse

/-- Python `str.strip()` on a character list. -/
def pyStripChars (s : List Char) : List Char :=
  rstripChars (lstripChars s)

/-- Python `s.split('\n')`: split at every newline, keeping empty parts. -/
def splitNL : List Char → List (List Char)
  | [] => [[]]
  | c :: rest =>
    if c = '\n' then [] :: splitNL rest
    else
      match splitNL rest with
      | [] => [[c]]
      | t :: ts => (c :: t) :: ts

/-- Python `s.split('\n\n')`: split at every non-overlapping leftmost occurrence of a
double newline, keeping empty parts. -/
def splitNN : List Char → List (List Char)
  | [] => [[]]
  | [a] => [[a]]
  | a :: b :: rest =>
    if a = '\n' ∧ b = '\n' then [] :: splitNN rest
    else
      match splitNN (b :: rest) with
      | [] => [[a]]
      | t :: ts => (a :: t) :: ts

/-- The agreements section header of the fixed prompt format. -/
def AGR_HEADER : List Char := "ДОГОВОРЕННОСТИ:".data

/-- The risks section header of the fixed prompt format. -/
def RISK_HEADER : List Char := "РИСКИ:".data

/-- The recommendations section header of the fixed prompt format. -/
def REC_HEADER : List Char := "РЕКОМЕНДАЦИИ:".data

/-- The result dict of `MessageSummarizer._parse_gpt_response`
(app/summarize.py:95-147): the three bullet lists. -/
structure ParsedSummary where
  agreements : List (List Char)
  risks : List (List Char)
  recommendations : List (List Char)
deriving DecidableEq

/-- The bullet-line loop of `_parse_gpt_response` (app/summarize.py:122-126): for each
line, strip it; when the stripped line starts with `-` or `•`, emit the line with the
first character dropped and stripped again. -/
def extractBullets (lines : List (List Char)) : List (List Char) :=
  lines.filterMap fun l =>
    match pyStripChars l with
    | [] => none
    | c :: rest => if c = '-' ∨ c = '•' then some (pyStripChars rest) else none

/-- The per-block branch of `_parse_gpt_response` (app/summarize.py:115-140): strip
the block, skip it when empty, classify it by the first header found in its uppercase
form (agreements checked before risks before recommendations), and append the block's
bullet lines (all lines after the first) to the matching list. -/
def processBlock (acc : ParsedSummary) (block : List Char) : ParsedSummary :=
  if pyStripChars block = [] then acc
  else if containsSub AGR_HEADER ((pyStripChars block).map pyUpperChar) then
    { acc with agreements :=
        acc.agreements ++ extractBullets ((splitNL (pyStripChars block)).drop 1) }
  else if containsSub RISK_HEADER ((pyStripChars block).map pyUpperChar) then
    { acc with risks :=
        acc.risks ++ extractBullets ((splitNL (pyStripChars block)).drop 1) }
  else if containsSub REC_HEADER ((pyStripChars block).map pyUpperChar) then
    { acc with recommendations :=
        acc.recommendations ++ extractBullets ((splitNL (pyStripChars block)).drop 1) }
  else acc

/-- `MessageSummarizer._parse_gpt_response` (app/summarize.py:95-147): split the
response on blank lines and fold every block into the result.  The `except` fallback
that would return the whole response as a single recommendation is unreachable here:
the string operations of the loop are total. -/
def parse_gpt_response (response : List Char) : ParsedSummary :=
  (splitNN response).foldl processBlock ⟨[], [], []⟩

/-- `noNN s` holds when `s` has no two adjacent newline characters. -/
def noNN : List Char → Bool
  | [] => true
  | [_] => true
  | a :: b :: r => !(a = '\n' && b = '\n') && noNN (b :: r)

/-- `headNotSpace s`: the first character of `s`, if any, is not whitespace. -/
def headNotSpace (s : List Char) : Bool :=
  match s.head? with
  | some a => !(pyIsSpace a)
  | none => true

/-- `lastNotSpace s`: the last character of `s`, if any, is not whitespace. -/
def lastNotSpace (s : List Char) : Bool :=
  match s.getLast? with
  | some a => !(pyIsSpace a)
  | none => true

theorem length_dropWhile_le {α : Type} (p : α → Bool) (l : List α) :
    (l.dropWhile p).length ≤ l.length :=
  (List.IsSuffix.sublist (List.dropWhile_suffix p)).length_le

theorem dropWhile_eq_self_head {α : Type} (p : α → Bool) (l : List α)
    (h : l.dropWhile p = l) : ∀ a, l.head? = some a → p a = false := by
  intro a ha
  cases l with
  | nil => cases ha
  | cons x xs =>
    have hx : x = a := by
      simpa using ha
    subst hx
    by_cases hp : p x = true
    · rw [List.dropWhile_cons_of_pos hp] at h
      have hlen := length_dropWhile_le p xs
      rw [h] at hlen
      simp at hlen
    · simpa using hp

theorem dropWhile_eq_self_of_head {α : Type} (p : α → Bool) (l : List α)
    (h : ∀ a, l.head? = some a → p a = false) : l.dropWhile p = l := by
  cases l with
  | nil => rfl
  | cons x xs =>
    have hx : p x = false := h x rfl
    simp [List.dropWhile_cons, hx]

theorem lstripChars_eq_self_iff (s : List Char) :
    lstripChars s = s ↔ headNotSpace s = true := by
  rw [lstripChars, headNotSpace]
  constructor
  · intro h
    cases hs : s.head? with
    | none => rfl
    | some a => simpa using dropWhile_eq_self_head pyIsSpace s h a hs
  · intro h
    refine dropWhile_eq_self_of_head pyIsSpace s fun a ha => ?_
    rw [ha] at h
    simpa using h

theorem rstripChars_eq_self_iff (s : List Char) :
    rstripChars s = s ↔ lastNotSpace s = true := by
  rw [rstripChars, lastNotSpace]
  constructor
  · intro h
    cases hs : s.getLast? with
    | none => rfl
    | some a =>
      have h2 : s.reverse.dropWhile pyIsSpace = s.reverse := by
        have := congrArg List.reverse h
        simpa using this
      have h3 : s.reverse.head? = some a := by
        rw [List.head?_reverse]
        exact hs
      simpa using dropWhile_eq_self_head pyIsSpace s.reverse h2 a h3
  · intro h
    have h2 : s.reverse.dropWhile pyIsSpace = s.reverse := by
      refine dropWhile_eq_self_of_head pyIsSpace s.reverse fun a ha => ?_
      rw [List.head?_reverse] at ha
      rw [ha] at h
      simpa using h
    rw [h2, List.reverse_reverse]

theorem pyStrip_eq_self_of (s : List Char) (h1 : headNotSpace s = true)
    (h2 : lastNotSpace s = true) : pyStripChars s = s := by
  rw [pyStripChars, (lstripChars_eq_self_iff s).mpr h1, (rstripChars_eq_self_iff s).mpr h2]

theorem dropWhile_length_eq {α : Type} (p : α → Bool) (l : List α)
    (h : (l.dropWhile p).length = l.length) : l.dropWhile p = l := by
  cases l with
  | nil => rfl
  | cons x xs =>
    by_cases hp : p x = true
    · rw [List.dropWhile_cons_of_pos hp] at h
      have := length_dropWhile_le p xs
      simp at h
      omega
    · simp [List.dropWhile_cons, hp]

theorem stripped_lstrip (c : List Char) (h : pyStripChars c = c) : lstripChars c = c := by
  have hlen1 : (lstripChars c).length ≤ c.length := length_dropWhile_le _ _
  have hlen2 : (rstripChars (lstripChars c)).length ≤ (lstripChars c).length := by
    rw [rstripChars]
    have := length_dropWhile_le pyIsSpace (lstripChars c).reverse
    simpa using this
  rw [pyStripChars] at h
  have hlen3 : c.length ≤ (lstripChars c).length := by
    calc c.length = (rstripChars (lstripChars c)).length := by rw [h]
    _ ≤ (lstripChars c).length := hlen2
  have hlen : (lstripChars c).length = c.length := le_antisymm hlen1 hlen3
  rw [lstripChars] at hlen ⊢
  exact dropWhile_length_eq pyIsSpace c hlen

theorem stripped_rstrip (c : List Char) (h : pyStripChars c = c) : rstripChars c = c := by
  have h1 := stripped_lstrip c h
  rw [pyStripChars, h1] at h
  exact h

theorem stripped_head_not_space (c : List Char) (h : pyStripChars c = c) :
    headNotSpace c = true :=
  (lstripChars_eq_self_iff c).mp (stripped_lstrip c h)

theorem stripped_last_not_space (c : List Char) (h : pyStripChars c = c) :
    lastNotSpace c = true :=
  (rstripChars_eq_self_iff c).mp (stripped_rstrip c h)

/-- Join lines with single newlines (the inverse of `splitNL`, used to build
well-formed provider responses). -/
def joinNL : List (List Char) → List Char
  | [] => []
  | [l] => l
  | l :: l2 :: ls => l ++ '\n' :: joinNL (l2 :: ls)

theorem joinNL_cons (l : List Char) (ls : List (List Char)) :
    ∃ t, joinNL (l :: ls) = l ++ t := by
  cases ls with
  | nil => exact ⟨[], by simp [joinNL]⟩
  | cons l2 ls2 => exact ⟨'\n' :: joinNL (l2 :: ls2), rfl⟩

theorem joinNL_ne_nil (l : List Char) (ls : List (List Char)) (hl : l ≠ []) :
    joinNL (l :: ls) ≠ [] := by
  obtain ⟨t, ht⟩ := joinNL_cons l ls
  rw [ht]
  intro hc
  exact hl (List.append_eq_nil.mp hc).1

theorem head?_joinNL_cons (l : List Char) (ls : List (List Char)) (hl : l ≠ []) :
    (joinNL (l :: ls)).head? = l.head? := by
  obtain ⟨t, ht⟩ := joinNL_cons l ls
  rw [ht, List.head?_append]
  cases l with
  | nil => exact absurd rfl hl
  | cons x xs => rfl

theorem splitNL_noNL (s : List Char) (h : '\n' ∉ s) : splitNL s = [s] := by
  induction s with
  | nil => rfl
  | cons c r ih =>
    have hc : ¬ c = '\n' := fun hh => h (hh ▸ List.mem_cons_self c r)
    have hr := ih fun m => h (List.mem_cons_of_mem c m)
    rw [splitNL, if_neg hc, hr]

theorem splitNL_append (A rest : List Char) (h : '\n' ∉ A) :
    splitNL (A ++ '\n' :: rest) = A :: splitNL rest := by
  induction A with
  | nil =>
    rw [List.nil_append, splitNL, if_pos rfl]
  | cons a t ih =>
    have ha : ¬ a = '\n' := fun hh => h (hh ▸ List.mem_cons_self a t)
    have ht := ih fun m => h (List.mem_cons_of_mem a m)
    rw [List.cons_append, splitNL, if_neg ha, ht]

theorem splitNL_joinNL (lines : List (List Char)) (h : ∀ l ∈ lines, '\n' ∉ l)
    (hne : lines ≠ []) : splitNL (joinNL lines) = lines := by
  induction lines with
  | nil => exact absurd rfl hne
  | cons l ls ih =>
    cases ls with
    | nil => simpa [joinNL] using splitNL_noNL l (h l (List.mem_cons_self l []))
    | cons l2 ls2 =>
      have hstep : joinNL (l :: l2 :: ls2) = l ++ '\n' :: joinNL (l2 :: ls2) := rfl
      rw [hstep, splitNL_append _ _ (h l (List.mem_cons_self ..)),
        ih (fun x hx => h x (List.mem_cons_of_mem l hx)) (by simp)]

theorem noNN_cons_cons (a b : Char) (r : List Char) :
    noNN (a :: b :: r) = (!(a = '\n' && b = '\n') && noNN (b :: r)) := rfl

theorem noNN_cons_of (a : Char) (s : List Char) (hs : noNN s = true)
    (h : a ≠ '\n' ∨ s.head? ≠ some '\n') : noNN (a :: s) = true := by
  cases s with
  | nil => rfl
  | cons b r =>
    rw [noNN_cons_cons, Bool.and_eq_true, hs]
    refine ⟨?_, rfl⟩
    rcases h with h | h
    · simp [h]
    · have hb : b ≠ '\n' := fun hh => h (by simp [hh])
      simp [hb]

theorem noNN_append (l rest : List Char) (hl : '\n' ∉ l) (hrest : noNN rest = true) :
    noNN (l ++ rest) = true := by
  induction l with
  | nil => simpa using hrest
  | cons a t ih =>
    have ha : a ≠ '\n' := fun hh => hl (hh ▸ List.mem_cons_self a t)
    have ht := ih fun m => hl (List.mem_cons_of_mem a m)
    exact noNN_cons_of a (t ++ rest) ht (Or.inl ha)

theorem noNN_joinNL (lines : List (List Char)) (h : ∀ l ∈ lines, '\n' ∉ l ∧ l ≠ []) :
    noNN (joinNL lines) = true := by
  induction lines with
  | nil => rfl
  | cons l ls ih =>
    cases ls with
    | nil =>
      have := noNN_append l [] (h l (List.mem_cons_self ..)).1 rfl
      simpa [joinNL] using this
    | cons l2 ls2 =>
      have hstep : joinNL (l :: l2 :: ls2) = l ++ '\n' :: joinNL (l2 :: ls2) := rfl
      rw [hstep]
      refine noNN_append l _ (h l (List.mem_cons_self ..)).1 ?_
      refine noNN_cons_of '\n' _ (ih fun x hx => h x (List.mem_cons_of_mem l hx)) (Or.inr ?_)
      rw [head?_joinNL_cons l2 ls2 (h l2 (by simp)).2]
      cases hl2 : l2 with
      | nil => exact absurd hl2 (h l2 (by simp)).2
      | cons x xs =>
        have hx : x ≠ '\n' := fun hh => (h l2 (by simp)).1 (by rw [hl2, hh]; simp)
        simp [hx]

theorem joinNL_getLast_mem (lines : List (List Char)) (a : Char)
    (hne : ∀ l ∈ lines, l ≠ []) (hlast : (joinNL lines).getLast? = some a) :
    ∃ l ∈ lines, l.getLast? = some a := by
  induction lines with
  | nil => simp [joinNL] at hlast
  | cons l ls ih =>
    cases ls with
    | nil => exact ⟨l, by simp, by simpa [joinNL] using hlast⟩
    | cons l2 ls2 =>
      have hstep : joinNL (l :: l2 :: ls2) = l ++ '\n' :: joinNL (l2 :: ls2) := rfl
      rw [hstep, List.getLast?_append] at hlast
      have hjoin_ne : joinNL (l2 :: ls2) ≠ [] := joinNL_ne_nil l2 ls2 (hne l2 (by simp))
      cases hj : joinNL (l2 :: ls2) with
      | nil => exact absurd hj hjoin_ne
      | cons x xs =>
        rw [hj, List.getLast?_cons_cons] at hlast
        have hsome : (x :: xs).getLast? = some a := by
          cases hlx : (x :: xs).getLast? with
          | none => simp [List.getLast?_cons] at hlx
          | some b =>
            rw [hlx] at hlast
            simpa using hlast
        rcases ih (fun x hx => hne x (List.mem_cons_of_mem l hx)) (hj ▸ hsome)
          with ⟨l3, h3, hm3⟩
        exact ⟨l3, List.mem_cons_of_mem l h3, hm3⟩

theorem splitNN_no (s : List Char) (h : noNN s = true) : splitNN s = [s] := by
  induction s with
  | nil => rfl
  | cons a tail ih =>
    cases tail with
    | nil => rfl
    | cons b r =>
      rw [noNN_cons_cons, Bool.and_eq_true] at h
      have hcond : ¬ (a = '\n' ∧ b = '\n') := by
        intro ⟨h1, h2⟩
        rw [h1, h2] at h
        simpa using h.1
      rw [splitNN.eq_3, if_neg hcond, ih h.2]

theorem splitNN_append (A rest : List Char) (h1 : noNN A = true)
    (h2 : A.getLast? ≠ some '\n') :
    splitNN (A ++ '\n' :: '\n' :: rest) = A :: splitNN rest := by
  induction A with
  | nil =>
    rw [List.nil_append, splitNN.eq_3, if_pos ⟨rfl, rfl⟩]
  | cons a t ih =>
    cases t with
    | nil =>
      have ha : ¬ (a = '\n' ∧ '\n' = '\n') := by
        rintro ⟨hh, _⟩
        exact h2 (by simp [hh])
      rw [List.cons_append, List.nil_append, splitNN.eq_3, if_neg ha, splitNN.eq_3,
        if_pos ⟨rfl, rfl⟩]
    | cons c t2 =>
      rw [noNN_cons_cons, Bool.and_eq_true] at h1
      have hcond : ¬ (a = '\n' ∧ c = '\n') := by
        intro ⟨hh1, hh2⟩
        rw [hh1, hh2] at h1
        simpa using h1.1
      have h2' : (c :: t2).getLast? ≠ some '\n' := by
        rwa [List.getLast?_cons_cons] at h2
      have := ih h1.2 h2'
      rw [List.cons_append] at this
      rw [List.cons_append, List.cons_append, splitNN.eq_3, if_neg hcond, this]

/-- A well-formed bullet content: no newline, already stripped, non-empty. -/
def goodContent (c : List Char) : Prop :=
  '\n' ∉ c ∧ pyStripChars c = c ∧ c ≠ []

instance (c : List Char) : Decidable (goodContent c) := by
  rw [goodContent]
  infer_instance

/-- A provider-response section in the format demanded by the fixed prompt: the header
line followed by one `- content` bullet line per entry. -/
def mkBlock (header : List Char) (contents : List (List Char)) : List Char :=
  joinNL (header :: contents.map fun c => '-' :: ' ' :: c)

theorem headNotSpace_spec (s : List Char) (h : headNotSpace s = true) (a : Char)
    (ha : s.head? = some a) : pyIsSpace a = false := by
  rw [headNotSpace, ha] at h
  simpa using h

theorem lastNotSpace_spec (s : List Char) (h : lastNotSpace s = true) (a : Char)
    (ha : s.getLast? = some a) : pyIsSpace a = false := by
  rw [lastNotSpace, ha] at h
  simpa using h

theorem bullet_lastNotSpace (c : List Char) (h : pyStripChars c = c) (hne : c ≠ []) :
    lastNotSpace ('-' :: ' ' :: c) = true := by
  rw [lastNotSpace]
  cases c with
  | nil => exact absurd rfl hne
  | cons x xs =>
    rw [List.getLast?_cons_cons, List.getLast?_cons_cons]
    have h2 := stripped_last_not_space _ h
    rw [lastNotSpace] at h2
    exact h2

theorem strip_bullet (c : List Char) (h : pyStripChars c = c) (hne : c ≠ []) :
    pyStripChars ('-' :: ' ' :: c) = '-' :: ' ' :: c := by
  apply pyStrip_eq_self_of
  · rfl
  · exact bullet_lastNotSpace c h hne

theorem strip_space_cons (c : List Char) (h : pyStripChars c = c) :
    pyStripChars (' ' :: c) = c := by
  have hpos : pyIsSpace ' ' = true := rfl
  rw [pyStripChars, lstripChars, List.dropWhile_cons_of_pos hpos]
  have h1 : c.dropWhile pyIsSpace = c := stripped_lstrip c h
  rw [h1]
  exact stripped_rstrip c h

theorem extractBullets_bullets (cs : List (List Char)) (h : ∀ c ∈ cs, goodContent c) :
    extractBullets (cs.map fun c => '-' :: ' ' :: c) = cs := by
  induction cs with
  | nil => rfl
  | cons c cs' ih =>
    obtain ⟨h1, h2, h3⟩ := h c (List.mem_cons_self ..)
    rw [List.map_cons, extractBullets, List.filterMap_cons]
    rw [strip_bullet c h2 h3]
    simp only []
    rw [← extractBullets, ih fun x hx => h x (List.mem_cons_of_mem c hx)]
    rw [strip_space_cons c h2]
    simp

theorem mkBlock_lines_ok (hdr : List Char) (cs : List (List Char))
    (hh1 : hdr ≠ []) (hh2 : '\n' ∉ hdr) (hcs : ∀ c ∈ cs, goodContent c) :
    ∀ l ∈ hdr :: cs.map (fun c => '-' :: ' ' :: c), '\n' ∉ l ∧ l ≠ [] := by
  intro l hl
  rcases List.mem_cons.mp hl with rfl | hl
  · exact ⟨hh2, hh1⟩
  · obtain ⟨c, hc, rfl⟩ := List.mem_map.mp hl
    obtain ⟨h1, _, _⟩ := hcs c hc
    refine ⟨?_, by simp⟩
    intro hmem
    simp only [List.mem_cons] at hmem
    rcases hmem with h | h | h
    · cases h
    · cases h
    · exact h1 h

theorem mkBlock_ne_nil (hdr : List Char) (cs : List (List Char)) (hh1 : hdr ≠ []) :
    mkBlock hdr cs ≠ [] :=
  joinNL_ne_nil hdr _ hh1

theorem mkBlock_noNN (hdr : List Char) (cs : List (List Char)) (hh1 : hdr ≠ [])
    (hh2 : '\n' ∉ hdr) (hcs : ∀ c ∈ cs, goodContent c) :
    noNN (mkBlock hdr cs) = true :=
  noNN_joinNL _ (mkBlock_lines_ok hdr cs hh1 hh2 hcs)

theorem mkBlock_headNotSpace (hdr : List Char) (cs : List (List Char)) (hh1 : hdr ≠ [])
    (hh3 : headNotSpace hdr = true) : headNotSpace (mkBlock hdr cs) = true := by
  rw [headNotSpace, mkBlock, head?_joinNL_cons _ _ hh1]
  rw [headNotSpace] at hh3
  exact hh3

theorem mkBlock_lastNotSpace (hdr : List Char) (cs : List (List Char)) (hh1 : hdr ≠ [])
    (hh2 : '\n' ∉ hdr) (hh4 : lastNotSpace hdr = true)
    (hcs : ∀ c ∈ cs, goodContent c) : lastNotSpace (mkBlock hdr cs) = true := by
  rw [lastNotSpace]
  cases hlast : (mkBlock hdr cs).getLast? with
  | none => rfl
  | some a =>
    obtain ⟨l, hl, hla⟩ := joinNL_getLast_mem _ a
      (fun l hl => (mkBlock_lines_ok hdr cs hh1 hh2 hcs l hl).2) hlast
    rcases List.mem_cons.mp hl with rfl | hl
    · simp [lastNotSpace_spec l hh4 a hla]
    · obtain ⟨c, hc, rfl⟩ := List.mem_map.mp hl
      obtain ⟨_, h2, h3⟩ := hcs c hc
      simp [lastNotSpace_spec _ (bullet_lastNotSpace c h2 h3) a hla]

theorem mkBlock_strip (hdr : List Char) (cs : List (List Char)) (hh1 : hdr ≠ [])
    (hh2 : '\n' ∉ hdr) (hh3 : headNotSpace hdr = true) (hh4 : lastNotSpace hdr = true)
    (hcs : ∀ c ∈ cs, goodContent c) :
    pyStripChars (mkBlock hdr cs) = mkBlock hdr cs :=
  pyStrip_eq_self_of _ (mkBlock_headNotSpace hdr cs hh1 hh3)
    (mkBlock_lastNotSpace hdr cs hh1 hh2 hh4 hcs)

theorem mkBlock_getLast_ne_nl (hdr : List Char) (cs : List (List Char)) (hh1 : hdr ≠ [])
    (hh2 : '\n' ∉ hdr) (hh4 : lastNotSpace hdr = true)
    (hcs : ∀ c ∈ cs, goodContent c) : (mkBlock hdr cs).getLast? ≠ some '\n' := by
  intro hc
  have := lastNotSpace_spec _ (mkBlock_lastNotSpace hdr cs hh1 hh2 hh4 hcs) '\n' hc
  cases this

theorem mkBlock_splitNL (hdr : List Char) (cs : List (List Char)) (hh1 : hdr ≠ [])
    (hh2 : '\n' ∉ hdr) (hcs : ∀ c ∈ cs, goodContent c) :
    splitNL (mkBlock hdr cs) = hdr :: cs.map (fun c => '-' :: ' ' :: c) :=
  splitNL_joinNL _ (fun l hl => (mkBlock_lines_ok hdr cs hh1 hh2 hcs l hl).1) (by simp)

theorem mkBlock_upper_contains (hdr : List Char) (cs : List (List Char))
    (hu : hdr.map pyUpperChar = hdr) :
    containsSub hdr ((mkBlock hdr cs).map pyUpperChar) = true := by
  obtain ⟨t, ht⟩ := joinNL_cons hdr (cs.map fun c => '-' :: ' ' :: c)
  rw [mkBlock, ht, List.map_append, hu]
  exact containsSub_of_isPrefixCheck (isPrefixCheck_append hdr _)

theorem processBlock_mkBlock_agr (acc : ParsedSummary) (ags : List (List Char))
    (hA : ∀ c ∈ ags, goodContent c) :
    processBlock acc (mkBlock AGR_HEADER ags) =
      { acc with agreements := acc.agreements ++ ags } := by
  have hstrip := mkBlock_strip AGR_HEADER ags (by decide) (by decide) (by decide)
    (by decide) hA
  rw [processBlock, hstrip]
  rw [if_neg (mkBlock_ne_nil AGR_HEADER ags (by decide))]
  rw [if_pos (mkBlock_upper_contains AGR_HEADER ags (by decide))]
  rw [mkBlock_splitNL AGR_HEADER ags (by decide) (by decide) hA]
  rw [List.drop_one, List.tail_cons, extractBullets_bullets ags hA]

theorem processBlock_mkBlock_risk (acc : ParsedSummary) (rks : List (List Char))
    (hR : ∀ c ∈ rks, goodContent c)
    (hB1 : containsSub AGR_HEADER ((mkBlock RISK_HEADER rks).map pyUpperChar) = false) :
    processBlock acc (mkBlock RISK_HEADER rks) =
      { acc with risks := acc.risks ++ rks } := by
  have hstrip := mkBlock_strip RISK_HEADER rks (by decide) (by decide) (by decide)
    (by decide) hR
  rw [processBlock, hstrip]
  rw [if_neg (mkBlock_ne_nil RISK_HEADER rks (by decide))]
  rw [if_neg (by rw [hB1]; exact Bool.false_ne_true)]
  rw [if_pos (mkBlock_upper_contains RISK_HEADER rks (by decide))]
  rw [mkBlock_splitNL RISK_HEADER rks (by decide) (by decide) hR]
  rw [List.drop_one, List.tail_cons, extractBullets_bullets rks hR]

theorem processBlock_mkBlock_rec (acc : ParsedSummary) (rcs : List (List Char))
    (hC : ∀ c ∈ rcs, goodContent c)
    (hC1 : containsSub AGR_HEADER ((mkBlock REC_HEADER rcs).map pyUpperChar) = false)
    (hC2 : containsSub RISK_HEADER ((mkBlock REC_HEADER rcs).map pyUpperChar) = false) :
    processBlock acc (mkBlock REC_HEADER rcs) =
      { acc with recommendations := acc.recommendations ++ rcs } := by
  have hstrip := mkBlock_strip REC_HEADER rcs (by decide) (by decide) (by decide)
    (by decide) hC
  rw [processBlock, hstrip]
  rw [if_neg (mkBlock_ne_nil REC_HEADER rcs (by decide))]
  rw [if_neg (by rw [hC1]; exact Bool.false_ne_true)]
  rw [if_neg (by rw [hC2]; exact Bool.false_ne_true)]
  rw [if_pos (mkBlock_upper_contains REC_HEADER rcs (by decide))]
  rw [mkBlock_splitNL REC_HEADER rcs (by decide) (by decide) hC]
  rw [List.drop_one, List.tail_cons, extractBullets_bullets rcs hC]

/-- C6: a provider response consisting of exactly the three labeled sections in the
prompt's format — the Agreements, Risks and Recommendations headers, blank-line
separated, each followed by `- content` bullet lines whose contents are
newline-free, trimmed and non-empty, with the later sections not containing an
earlier section's header — parses into exactly the three bullet-content lists,
verbatim and in order. -/
theorem parse_roundtrip (ags rks rcs : List (List Char))
    (hA : ∀ c ∈ ags, goodContent c) (hR : ∀ c ∈ rks, goodContent c)
    (hC : ∀ c ∈ rcs, goodContent c)
    (hB1 : containsSub AGR_HEADER ((mkBlock RISK_HEADER rks).map pyUpperChar) = false)
    (hC1 : containsSub AGR_HEADER ((mkBlock REC_HEADER rcs).map pyUpperChar) = false)
    (hC2 : containsSub RISK_HEADER ((mkBlock REC_HEADER rcs).map pyUpperChar) = false) :
    parse_gpt_response
        (mkBlock AGR_HEADER ags ++ '\n' :: '\n' ::
          (mkBlock RISK_HEADER rks ++ '\n' :: '\n' :: mkBlock REC_HEADER rcs)) =
      ⟨ags, rks, rcs⟩ := by
  rw [parse_gpt_response]
  rw [splitNN_append _ _ (mkBlock_noNN AGR_HEADER ags (by decide) (by decide) hA)
    (mkBlock_getLast_ne_nl AGR_HEADER ags (by decide) (by decide) (by decide) hA)]
  rw [splitNN_append _ _ (mkBlock_noNN RISK_HEADER rks (by decide) (by decide) hR)
    (mkBlock_getLast_ne_nl RISK_HEADER rks (by decide) (by decide) (by decide) hR)]
  rw [splitNN_no _ (mkBlock_noNN REC_HEADER rcs (by decide) (by decide) hC)]
  rw [List.foldl_cons, List.foldl_cons, List.foldl_cons, List.foldl_nil]
  rw [processBlock_mkBlock_agr _ ags hA, processBlock_mkBlock_risk _ rks hR hB1,
    processBlock_mkBlock_rec _ rcs hC hC1 hC2]
  simp

/-- Witness for C6: a concrete three-section response with two agreements, one risk
and one recommendation round-trips to exactly those bullet contents. -/
theorem parse_roundtrip_witness :
    (∀ c ∈ [("сделка утверждена").data, ("срок сдвинут").data], goodContent c) ∧
      (∀ c ∈ [("нет оплаты").data], goodContent c) ∧
      (∀ c ∈ [("позвонить клиенту").data], goodContent c) ∧
      parse_gpt_response
          (mkBlock AGR_HEADER [("сделка утверждена").data, ("срок сдвинут").data] ++
            '\n' :: '\n' ::
              (mkBlock RISK_HEADER [("нет оплаты").data] ++
                '\n' :: '\n' :: mkBlock REC_HEADER [("позвонить клиенту").data])) =
        ⟨[("сделка утверждена").data, ("срок сдвинут").data], [("нет оплаты").data],
          [("позвонить клиенту").data]⟩ := by
  refine ⟨by decide, by decide, by decide, ?_⟩
  exact parse_roundtrip [("сделка утверждена").data, ("срок сдвинут").data]
    [("нет оплаты").data] [("позвонить клиенту").data]
    (by decide) (by decide) (by decide) (by decide) (by decide) (by decide)

/-- A block in which none of the three section headers occurs (after stripping and
uppercasing) — the blocks the parser's if/elif chain skips. -/
def headerFree (b : List Char) : Bool :=
  !(containsSub AGR_HEADER ((pyStripChars b).map pyUpperChar)) &&
    !(containsSub RISK_HEADER ((pyStripChars b).map pyUpperChar)) &&
    !(containsSub REC_HEADER ((pyStripChars b).map pyUpperChar))

theorem processBlock_headerFree (acc : ParsedSummary) (b : List Char)
    (h : headerFree b = true) : processBlock acc b = acc := by
  rw [headerFree, Bool.and_eq_true, Bool.and_eq_true] at h
  obtain ⟨⟨h1, h2⟩, h3⟩ := h
  rw [Bool.not_eq_true'] at h1 h2 h3
  rw [processBlock]
  by_cases hempty : pyStripChars b = []
  · rw [if_pos hempty]
  · rw [if_neg hempty, if_neg (by rw [h1]; exact Bool.false_ne_true),
      if_neg (by rw [h2]; exact Bool.false_ne_true),
      if_neg (by rw [h3]; exact Bool.false_ne_true)]

/-- C7 (amended): a response none of whose blank-line-separated blocks contains a
recognizable section header parses to all-empty lists — the raw response is dropped;
the single-recommendation fallback of the code lives in an `except` branch that
string inputs never reach. -/
theorem parse_headerless (response : List Char)
    (h : (splitNN response).all headerFree = true) :
    parse_gpt_response response = ⟨[], [], []⟩ := by
  rw [parse_gpt_response]
  have hblocks := List.all_eq_true.mp h
  have hgen : ∀ (bs : List (List Char)), (∀ b ∈ bs, headerFree b = true) →
      ∀ acc : ParsedSummary, bs.foldl processBlock acc = acc := by
    intro bs
    induction bs with
    | nil => intro _ _; rfl
    | cons b bs' ih =>
      intro hb acc
      rw [List.foldl_cons, processBlock_headerFree acc b (hb b (List.mem_cons_self ..)),
        ih fun x hx => hb x (List.mem_cons_of_mem b hx)]
  exact hgen (splitNN response) (fun b hb => hblocks b hb) ⟨[], [], []⟩

/-- Witness for the amended C7 at the concrete headerless response `"hello"`. -/
theorem parse_headerless_witness :
    (splitNN ("hello").data).all headerFree = true ∧
      parse_gpt_response ("hello").data = ⟨[], [], []⟩ :=
  ⟨by decide, parse_headerless ("hello").data (by decide)⟩

/-- Counterexample to C7 as stated: the headerless response `"hello"` parses to three
empty lists, not to a single recommendation holding the raw response — the raw text
is silently dropped. -/
theorem parse_headerless_counterexample :
    (splitNN ("hello").data).all headerFree = true ∧
      parse_gpt_response ("hello").data = ⟨[], [], []⟩ ∧
      parse_gpt_response ("hello").data ≠ ⟨[], [], [("hello").data]⟩ := by
  refine ⟨by decide, by decide, by decide⟩

/-- A row of the `filters` table (app/db.py:86-93).  The schema declares only the
autoincrement integer primary key and indexes; there is no UNIQUE constraint on
`(kind, value)`. -/
structure FilterRow where
  kind : String
  value : String
deriving DecidableEq

/-- `DatabaseManager.add_filter` (app/db.py:205-218): `INSERT OR REPLACE INTO filters
(kind, value) VALUES (?, ?)`.  Because the `filters` schema has no UNIQUE constraint
on `(kind, value)` (only the autoincrement rowid key, which never conflicts), the
`OR REPLACE` clause can never fire, and the statement always appends a fresh row.
`ok` models whether the SQL execution succeeds; on failure the `except` branch
returns `False` and the table is unchanged. -/
def add_filter (rows : List FilterRow) (ok : Bool) (kind value : String) :
    Bool × List FilterRow :=
  if ok then (true, rows ++ [⟨kind, value⟩]) else (false, rows)

/-- `DatabaseManager.get_filters` (app/db.py:220-234): list all rows, or the rows of
one kind. -/
def get_filters (rows : List FilterRow) (kind : Option String) : List FilterRow :=
  match kind with
  | none => rows
  | some k => rows.filter fun r => r.kind = k

/-- C9 is violated by the code: inserting the rule `(keyword, x)` twice into an empty
store leaves two identical rows, and the full filter listing contains the duplicate
pair — `INSERT OR REPLACE` degenerates to a plain insert because the schema lacks a
UNIQUE constraint on `(kind, value)`. -/
theorem add_filter_duplicate :
    (add_filter (add_filter [] true "keyword" "x").2 true "keyword" "x").2 =
        [⟨"keyword", "x"⟩, ⟨"keyword", "x"⟩] ∧
      (get_filters
          (add_filter (add_filter [] true "keyword" "x").2 true "keyword" "x").2
          none).count ⟨"keyword", "x"⟩ = 2 := by
  refine ⟨rfl, by decide⟩

/-- `MessageFilter._load_filters` (app/filters.py:86-112): rebuild the three in-memory
sets from the store's rows; custom keywords are lowercased on load. -/
def load_filters (rows : List FilterRow) : FilterState :=
  rows.foldl
    (fun st r =>
      if r.kind = "allow_chat" then
        { st with allow_chats := insert r.value st.allow_chats }
      else if r.kind = "deny_chat" then
        { st with deny_chats := insert r.value st.deny_chats }
      else if r.kind = "keyword" then
        { st with custom_keywords := insert (pyLower r.value) st.custom_keywords }
      else st)
    ⟨∅, ∅, ∅⟩

/-- `MessageFilter.add_allow_chat` (app/filters.py:189-195): write through to the
store; on success add to the in-memory set and reload everything from the store (the
net in-memory state is the reload); on failure return `false` with nothing changed. -/
def add_allow_chat (ok : Bool) (rows : List FilterRow) (st : FilterState)
    (chat_id : String) : Bool × List FilterRow × FilterState :=
  let r := add_filter rows ok "allow_chat" chat_id
  if r.1 then (true, r.2, load_filters r.2) else (false, r.2, st)

/-- `MessageFilter.add_deny_chat` (app/filters.py:197-203). -/
def add_deny_chat (ok : Bool) (rows : List FilterRow) (st : FilterState)
    (chat_id : String) : Bool × List FilterRow × FilterState :=
  let r := add_filter rows ok "deny_chat" chat_id
  if r.1 then (true, r.2, load_filters r.2) else (false, r.2, st)

/-- `MessageFilter.add_keyword` (app/filters.py:205-211): the keyword is lowercased
before the store write. -/
def add_keyword (ok : Bool) (rows : List FilterRow) (st : FilterState)
    (keyword : String) : Bool × List FilterRow × FilterState :=
  let r := add_filter rows ok "keyword" (pyLower keyword)
  if r.1 then (true, r.2, load_filters r.2) else (false, r.2, st)

/-- C10: when the RuleStore write fails, each of the three rule mutations returns
`false` and leaves both the persisted rows and the in-memory rule set unchanged, so
no partial update is observable by later classification calls. -/
theorem mutation_failure_no_change (rows : List FilterRow) (st : FilterState)
    (v : String) :
    add_allow_chat false rows st v = (false, rows, st) ∧
      add_deny_chat false rows st v = (false, rows, st) ∧
      add_keyword false rows st v = (false, rows, st) :=
  ⟨rfl, rfl, rfl⟩

/-- One step of the `chats_data` grouping loop of `_get_chats_statistics`
(app/main.py:459-469): the first message of a chat fixes its title and its
`is_work_chat` flag; later messages only bump the count. -/
def statsAdd (f : FilterState) : List (String × ChatDetail) → Msg →
    List (String × ChatDetail)
  | [], m => [(m.chat_id, ⟨m.title, 1, is_work_chat f m.chat_id m.title⟩)]
  | (k, d) :: rest, m =>
    if k = m.chat_id then (k, ⟨d.title, d.messages_count + 1, d.is_work⟩) :: rest
    else (k, d) :: statsAdd f rest m

/-- `_get_chats_statistics` (app/main.py:448-485): total message count, per-chat
details in first-seen order, and the work/personal chat tallies. -/
def get_chats_statistics (f : FilterState) (messages : List Msg) : ChatsStats :=
  let detail := messages.foldl (statsAdd f) []
  { total_messages := messages.length
    total_chats := detail.length
    work_chats := (detail.filter fun e => e.2.is_work).length
    personal_chats := (detail.filter fun e => !e.2.is_work).length
    chats_detail := detail }

/-- One per-chat report entry accumulated in `all_reports` by `run_hourly_analysis`
(app/main.py:351-355). -/
structure ReportEntry where
  chat_id : String
  chat_title : String
  summary : SummaryR
deriving DecidableEq

/-- An outbound send performed by a Run: either the statistics-only report
(`_send_statistics_report`) or the full analysis digest (`_send_analysis_report`),
recorded with the arguments the code passes. -/
inductive SendAction where
  | statistics (stats : ChatsStats) (workChatsCount : Nat)
  | analysis (reports : List ReportEntry) (activeChats : Nat) (stats : ChatsStats)
deriving DecidableEq

/-- The observable outcome of one Run: the returned boolean, the chat groups passed
to the Summarizer, and the send actions attempted (delivered when a target user is
configured). -/
structure RunResult where
  ok : Bool
  summarizerCalls : List (List Msg)
  sends : List SendAction
deriving DecidableEq

/-- `TelegramAnalyticsBot.run_hourly_analysis` (app/main.py:285-373), with the
collaborators abstracted: `store`/`ws`/`we` feed the message fetch, `runIdOk` models
whether `create_run` returned a non-zero id, and `summarize` models
`MessageSummarizer.analyze_messages` (`none` = failed analysis, dropping that chat).
The model records the summarizer calls and the send actions; the report-row inserts
and the best-effort archive step have no bearing on the claims and are omitted. -/
def run_hourly_analysis (f : FilterState) (store : List Msg) (ws we : Int)
    (runIdOk : Bool) (summarize : List Msg → Option SummaryR) : RunResult :=
  if !runIdOk then ⟨false, [], []⟩
  else
    let messages := get_new_messages store ws we
    if messages = [] then ⟨true, [], []⟩
    else
      let stats := get_chats_statistics f messages
      let work := filter_messages f messages
      if work = [] then ⟨true, [], [SendAction.statistics stats 0]⟩
      else
        let groups := group_by_chat work
        let reports := groups.filterMap fun g =>
          (summarize g.2).map fun s =>
            ⟨g.1, (match g.2 with | [] => "Chat " ++ g.1 | m :: _ => m.title), s⟩
        if reports ≠ [] then
          ⟨true, groups.map Prod.snd, [SendAction.analysis reports groups.length stats]⟩
        else
          ⟨true, groups.map Prod.snd, [SendAction.statistics stats groups.length]⟩

/-- C8 (amended): a Run whose fetched message set is empty completes successfully and
performs no summarization calls, but sends nothing at all — `run_hourly_analysis`
returns `True` before any report, statistics included, is assembled or sent. -/
theorem run_empty_fetch (f : FilterState) (store : List Msg) (ws we : Int)
    (summarize : List Msg → Option SummaryR)
    (h : get_new_messages store ws we = []) :
    run_hourly_analysis f store ws we true summarize = ⟨true, [], []⟩ := by
  rw [run_hourly_analysis]
  simp [h]

/-- Witness for the amended C8: an empty store over the window `[0, 100)`. -/
theorem run_empty_fetch_witness :
    get_new_messages [] 0 100 = [] ∧
      run_hourly_analysis ⟨∅, ∅, ∅⟩ [] 0 100 true (fun _ => none) = ⟨true, [], []⟩ :=
  ⟨rfl, run_empty_fetch ⟨∅, ∅, ∅⟩ [] 0 100 (fun _ => none) rfl⟩

/-- Counterexample to C8 as stated: on an empty fetch the Run returns success with no
summarizer calls, but its send list is empty — in particular it is not the claimed
singleton all-zero statistics report. -/
theorem run_empty_fetch_counterexample :
    run_hourly_analysis ⟨∅, ∅, ∅⟩ [] 0 100 true (fun _ => none) =
        RunResult.mk true [] [] ∧
      (run_hourly_analysis ⟨∅, ∅, ∅⟩ [] 0 100 true (fun _ => none)).sends ≠
        [SendAction.statistics ⟨0, 0, 0, 0, []⟩ 0] := by
  refine ⟨rfl, by decide⟩

